import Mathlib

/-!
Verification of the at-file prompt-injection core of this repository:
the brace-aware placeholder scanner and prompt expander
(packages/cli/src/services/prompt-processors/atFileProcessor.ts) and the
workspace-constrained path resolver
(packages/core/src/utils/pathReader.ts).

Text is embedded as `List Char`; indices are `Nat`s mirroring the
JavaScript string indices used by the source.
-/

deriving instance DecidableEq for Except

/-- Shorthand turning a Lean string literal into the character list used
by the embedding. -/
def lc (s : String) : List Char := s.toList

/-- Modelled from the spec: the constant AT_FILE_INJECTION_TRIGGER, defined
in prompt-processors/types.ts which is not part of the sources; the spec
fixes it as the literal two-character sequence at-sign followed by an
opening brace. -/
def AT_FILE_INJECTION_TRIGGER : List Char := ['@', '\x7b']

/-- Whitespace predicate backing JavaScript String.prototype.trim; the
common ASCII whitespace characters are modelled. -/
def isJsWhitespace (c : Char) : Bool :=
  c == ' ' || c == '\t' || c == '\n' || c == '\r' || c == '\x0b' || c == '\x0c'

/-- Embedding of JavaScript String.prototype.trim: strip leading and
trailing whitespace. -/
def trimText (cs : List Char) : List Char :=
  ((cs.dropWhile isJsWhitespace).reverse.dropWhile isJsWhitespace).reverse

/-- Embedding of JavaScript String.prototype.substring(a, b) under the
invariant a <= b: the characters of positions [a, b). -/
def substringL (cs : List Char) (a b : Nat) : List Char :=
  (cs.take b).drop a

/-- The FileInjection record of atFileProcessor.ts: a detected injection
site, with the trimmed path, the inclusive start index (pointing at the
at-sign) and the exclusive end index (pointing just past the closing
brace). -/
structure FileInjection where
  path : List Char
  startIndex : Nat
  endIndex : Nat
deriving DecidableEq, Repr

/-- Models JavaScript String.prototype.indexOf for the two-character
trigger: walk the remaining characters keeping an absolute position
counter, returning the position of the first occurrence of the trigger. -/
def indexOfTriggerAux : List Char → Nat → Option Nat
  | [], _ => none
  | [_], _ => none
  | a :: b :: rest, i =>
    if a = '@' ∧ b = '\x7b' then some i
    else indexOfTriggerAux (b :: rest) (i + 1)

/-- prompt.indexOf(AT_FILE_INJECTION_TRIGGER, index): position of the
first trigger occurrence at or after index, if any. -/
def findTriggerFrom (cs : List Char) (i : Nat) : Option Nat :=
  indexOfTriggerAux (cs.drop i) i

/-- The inner while loop of AtFileProcessor.extractInjections: walk
forward from the cursor maintaining the brace counter; an opening brace
increments it, a closing brace decrements it, and when it would reach
zero the position of that closing brace is returned. -/
def scanCloseAux : List Char → Int → Nat → Option Nat
  | [], _, _ => none
  | x :: rest, braceCount, cur =>
    if x = '\x7b' then scanCloseAux rest (braceCount + 1) (cur + 1)
    else if x = '\x7d' then
      if braceCount = 1 then some cur
      else scanCloseAux rest (braceCount - 1) (cur + 1)
    else scanCloseAux rest braceCount (cur + 1)

/-- The inner while loop of AtFileProcessor.extractInjections, indexed
form: scan cs from position cur with the given brace count. -/
def scanClose (cs : List Char) (cur : Nat) (braceCount : Int) : Option Nat :=
  scanCloseAux (cs.drop cur) braceCount cur

/-- The outer while loop of AtFileProcessor.extractInjections: find the
next trigger; if its braces close, emit the span and continue just past
the closing brace; otherwise resume one character past the trigger
start. -/
def extractLoop (cs : List Char) (index : Nat) : List FileInjection :=
  if _hlt : index < cs.length then
    match h1 : findTriggerFrom cs index with
    | none => []
    | some startIndex =>
      match h2 : scanClose cs (startIndex + 2) 1 with
      | some close =>
        { path := trimText (substringL cs (startIndex + 2) close)
          startIndex := startIndex
          endIndex := close + 1 } :: extractLoop cs (close + 1)
      | none => extractLoop cs (startIndex + 1)
  else []
termination_by cs.length - index
decreasing_by
  · have key : ∀ (l : List Char) (d : Int) (j c : Nat),
        scanCloseAux l d j = some c → j ≤ c ∧ c - j < l.length := by
      intro l
      induction l with
      | nil => intro d j c h; simp [scanCloseAux] at h
      | cons x rest ih =>
        intro d j c h
        simp only [scanCloseAux] at h
        split at h
        · have := ih (d + 1) (j + 1) c h
          simp only [List.length_cons] at this ⊢; omega
        · split at h
          · split at h
            · simp only [Option.some.injEq] at h
              simp only [List.length_cons]; omega
            · have := ih (d - 1) (j + 1) c h
              simp only [List.length_cons] at this ⊢; omega
          · have := ih d (j + 1) c h
            simp only [List.length_cons] at this ⊢; omega
    have keyT : ∀ (l : List Char) (j s : Nat),
        indexOfTriggerAux l j = some s → j ≤ s ∧ s - j < l.length := by
      intro l
      induction l with
      | nil => intro j s h; simp [indexOfTriggerAux] at h
      | cons a tail ih =>
        intro j s h
        cases tail with
        | nil => simp [indexOfTriggerAux] at h
        | cons b rest =>
          simp only [indexOfTriggerAux] at h
          split at h
          · simp only [Option.some.injEq] at h
            simp only [List.length_cons]; omega
          · have := ih (j + 1) s h
            simp only [List.length_cons] at this ⊢; omega
    have hs := keyT (cs.drop index) index startIndex h1
    have hc := key (cs.drop (startIndex + 2)) 1 (startIndex + 2) close h2
    rw [List.length_drop] at hs hc
    omega
  · have keyT : ∀ (l : List Char) (j s : Nat),
        indexOfTriggerAux l j = some s → j ≤ s ∧ s - j < l.length := by
      intro l
      induction l with
      | nil => intro j s h; simp [indexOfTriggerAux] at h
      | cons a tail ih =>
        intro j s h
        cases tail with
        | nil => simp [indexOfTriggerAux] at h
        | cons b rest =>
          simp only [indexOfTriggerAux] at h
          split at h
          · simp only [Option.some.injEq] at h
            simp only [List.length_cons]; omega
          · have := ih (j + 1) s h
            simp only [List.length_cons] at this ⊢; omega
    have hs := keyT (cs.drop index) index startIndex h1
    rw [List.length_drop] at hs
    omega

/-- AtFileProcessor.extractInjections: scan the whole prompt from
position 0. -/
def extractInjections (cs : List Char) : List FileInjection :=
  extractLoop cs 0

/-- prompt.includes(AT_FILE_INJECTION_TRIGGER). -/
def containsTrigger (cs : List Char) : Bool :=
  decide (AT_FILE_INJECTION_TRIGGER <:+: cs)

/-- Error taxonomy of pathReader.ts: the two errors the resolver throws
itself (out-of-bounds absolute path, path not found in workspace) and
errors propagated from the underlying filesystem calls (stat, readdir,
readFile), carrying the underlying cause message. -/
inductive ReadError where
  | outOfBounds (path : List Char)
  | notFound (path : List Char)
  | ioError (msg : List Char)
deriving DecidableEq, Repr

/-- The message of each error, mirroring the strings built in
pathReader.ts; an ioError carries the underlying cause text verbatim. -/
def ReadError.message : ReadError → List Char
  | .outOfBounds p => lc "Absolute path is outside of the allowed workspace: " ++ p
  | .notFound p => lc "Path not found in workspace: " ++ p
  | .ioError m => m

/-- The filesystem as seen through the fs/promises calls made by
pathReader.ts: access (true when the existence check resolves), stat
(isDirectory flag or a failure message), readdir and readFile. -/
structure FS where
  access : List Char → Bool
  stat : List Char → Except (List Char) Bool
  readdir : List Char → Except (List Char) (List (List Char))
  readFile : List Char → Except (List Char) (List Char)

/-- Modelled from the spec: WorkspaceContext
(packages/core/src/utils/workspaceContext.ts is not among the sources);
the spec describes it as an opaque collaborator exposing getDirectories,
an ordered sequence of absolute directory paths with the primary root
first, and the containment query isPathWithinWorkspace. -/
structure WorkspaceContext where
  getDirectories : List (List Char)
  isPathWithinWorkspace : List Char → Bool

/-- Models Node's path.isAbsolute on POSIX: the path is nonempty and
starts with a slash. -/
def isAbsolute (p : List Char) : Bool :=
  match p with
  | [] => false
  | c :: _ => c == '/'

/-- Models Node's path.resolve(dir, p) for the use in pathReader.ts,
where dir is an absolute root and p a relative path: join them with a
slash; dot-segment normalization is not modelled, no claim depends on
it. -/
def pathResolve (dir p : List Char) : List Char :=
  dir ++ '/' :: p

/-- The prioritized for-loop of readPathFromWorkspace over the workspace
directories: resolve the candidate path against each root in order and
return the first whose existence check succeeds; a failing check means
not found at this root and the search continues. -/
def findExisting (fsx : FS) (dirs : List (List Char)) (pathStr : List Char) :
    Option (List Char) :=
  match dirs with
  | [] => none
  | dir :: rest =>
    let potentialPath := pathResolve dir pathStr
    if fsx.access potentialPath then some potentialPath
    else findExisting fsx rest pathStr

/-- The first phase of readPathFromWorkspace: determine the absolute
target path (ok none meaning the variable absolutePath stayed null). An
absolute path must pass the workspace containment check; a relative path
is searched under the workspace directories in order. -/
def resolveAbsolutePath (fsx : FS) (ws : WorkspaceContext) (pathStr : List Char) :
    Except ReadError (Option (List Char)) :=
  if isAbsolute pathStr then
    if !ws.isPathWithinWorkspace pathStr then .error (.outOfBounds pathStr)
    else .ok (some pathStr)
  else
    .ok (findExisting fsx ws.getDirectories pathStr)

/-- The second phase of readPathFromWorkspace: stat the target; a
directory yields the formatted listing of its immediate children, built
with entries.join, anything else is read as a file. Failures of the
underlying calls surface as ioError. -/
def readTarget (fsx : FS) (absolutePath pathStr : List Char) :
    Except ReadError (List Char) :=
  match fsx.stat absolutePath with
  | .error m => .error (.ioError m)
  | .ok true =>
    match fsx.readdir absolutePath with
    | .error m => .error (.ioError m)
    | .ok entries =>
      .ok (lc "Directory listing for " ++ pathStr ++ lc ":\n- "
            ++ List.intercalate (lc "\n- ") entries)
  | .ok false =>
    match fsx.readFile absolutePath with
    | .error m => .error (.ioError m)
    | .ok content => .ok content

/-- pathReader.ts readPathFromWorkspace: resolve the path inside the
workspace, throw notFound when no absolute path was determined, then
read the target. -/
def readPathFromWorkspace (fsx : FS) (pathStr : List Char) (ws : WorkspaceContext) :
    Except ReadError (List Char) :=
  match resolveAbsolutePath fsx ws pathStr with
  | .error e => .error e
  | .ok none => .error (.notFound pathStr)
  | .ok (some absolutePath) => readTarget fsx absolutePath pathStr

/-- The uiMessage built in AtFileProcessor.process on a failed
injection. -/
def uiErrorMessage (path msg : List Char) : List Char :=
  lc "Failed to inject file content for \x27@\x7b" ++ path ++ lc "\x7d\x27: " ++ msg

/-- The body of the for-loop of AtFileProcessor.process: the state is
the accumulated output, lastIndex, and the notifications handed to the
ui sink so far. The text before the injection is appended; on successful
resolution the file content follows, on failure the original placeholder
slice is kept and an error notification is recorded. -/
def processStep (fsx : FS) (ws : WorkspaceContext) (prompt : List Char)
    (st : List Char × Nat × List (List Char)) (injection : FileInjection) :
    List Char × Nat × List (List Char) :=
  let pre := st.1 ++ substringL prompt st.2.1 injection.startIndex
  match readPathFromWorkspace fsx injection.path ws with
  | .ok fileContent => (pre ++ fileContent, injection.endIndex, st.2.2)
  | .error e =>
    (pre ++ substringL prompt injection.startIndex injection.endIndex,
     injection.endIndex,
     st.2.2 ++ [uiErrorMessage injection.path e.message])

/-- AtFileProcessor.process: returns the expanded prompt together with
the error notifications passed to the ui sink (each one an ERROR item
whose text is recorded here). A prompt without the trigger, or a context
without a config service, is returned unchanged; otherwise every
extracted injection is processed in order and the text after the last
injection is appended. -/
def process (fsx : FS) (config : Option WorkspaceContext) (prompt : List Char) :
    List Char × List (List Char) :=
  if containsTrigger prompt = false then (prompt, [])
  else
    match config with
    | none => (prompt, [])
    | some ws =>
      let injections := extractInjections prompt
      if injections.length = 0 then (prompt, [])
      else
        let st := injections.foldl (processStep fsx ws prompt) ([], 0, [])
        (st.1 ++ substringL prompt st.2.1 prompt.length, st.2.2)

/-- Written from the spec, for the refinement claims: the replacement a
single span contributes to the output, its resolved content on success
and the verbatim placeholder slice of the prompt on failure. -/
def spanReplacement (fsx : FS) (ws : WorkspaceContext) (prompt : List Char)
    (inj : FileInjection) : List Char :=
  match readPathFromWorkspace fsx inj.path ws with
  | .ok content => content
  | .error _ => substringL prompt inj.startIndex inj.endIndex

/-- Written from the spec, for the refinement claims: the notification a
single span contributes, none on success and the formatted failure
message on failure. -/
def spanNotification (fsx : FS) (ws : WorkspaceContext) (inj : FileInjection) :
    Option (List Char) :=
  match readPathFromWorkspace fsx inj.path ws with
  | .ok _ => none
  | .error e => some (uiErrorMessage inj.path e.message)

/-- Written from the spec, section 4.3: rebuild the output from a list
of spans by walking them in order, keeping the text between spans
verbatim and splicing in each span's replacement independently, then
appending the remaining text after the last span. -/
def rebuildFrom (fsx : FS) (ws : WorkspaceContext) (prompt : List Char) :
    Nat → List FileInjection → List Char
  | last, [] => substringL prompt last prompt.length
  | last, inj :: rest =>
    substringL prompt last inj.startIndex
      ++ spanReplacement fsx ws prompt inj
      ++ rebuildFrom fsx ws prompt inj.endIndex rest

/-- Written from the spec, for claim C8: a directory listing with
exactly one entry line per immediate child. -/
def dirListingPerChild (pathStr : List Char) (entries : List (List Char)) :
    List Char :=
  lc "Directory listing for " ++ pathStr ++ lc ":"
    ++ (entries.map (fun e => lc "\n- " ++ e)).flatten

/-- The signed brace weight of a character, for stating balancedness of
an injection's inner text. -/
def braceDelta (c : Char) : Int :=
  if c = '\x7b' then 1 else if c = '\x7d' then -1 else 0

/-- The total brace depth change over a character list. -/
def depthOf (cs : List Char) : Int :=
  (cs.map braceDelta).sum

/-- Fixture: a prompt holding a single injection with an absolute path. -/
def promptAbs : List Char := lc "@\x7b/etc/pw\x7d"

/-- Fixture: a workspace whose containment check rejects every path. -/
def wsOutside : WorkspaceContext :=
  { getDirectories := [], isPathWithinWorkspace := fun _ => false }

/-- Fixture: a filesystem on which every call fails. -/
def fsxStub : FS :=
  { access := fun _ => false
    stat := fun _ => .error (lc "boom")
    readdir := fun _ => .error (lc "boom")
    readFile := fun _ => .error (lc "boom") }

/-- Fixture: the mixed success and failure prompt of the spec. -/
def promptMixed : List Char :=
  lc "Analyze @\x7bmissing.txt\x7d and @\x7bok.txt\x7d"

/-- Fixture: a workspace with the single root /w. -/
def wsMixed : WorkspaceContext :=
  { getDirectories := [lc "/w"], isPathWithinWorkspace := fun _ => false }

/-- Fixture: a filesystem where only /w/ok.txt exists, as a file with
content "ok content". -/
def fsxMixed : FS :=
  { access := fun p => p == lc "/w/ok.txt"
    stat := fun p => if p == lc "/w/ok.txt" then .ok false else .error (lc "boom")
    readdir := fun _ => .error (lc "boom")
    readFile := fun p =>
      if p == lc "/w/ok.txt" then .ok (lc "ok content") else .error (lc "boom") }

/-- Fixture: a workspace with primary root /a and secondary root /b. -/
def wsTwoRoots : WorkspaceContext :=
  { getDirectories := [lc "/a", lc "/b"], isPathWithinWorkspace := fun _ => false }

/-- Fixture: a filesystem where the relative path f exists under both
roots of wsTwoRoots with different contents. -/
def fsxTwoRoots : FS :=
  { access := fun p => p == lc "/a/f" || p == lc "/b/f"
    stat := fun p =>
      if p == lc "/a/f" || p == lc "/b/f" then .ok false else .error (lc "boom")
    readdir := fun _ => .error (lc "boom")
    readFile := fun p =>
      if p == lc "/a/f" then .ok (lc "content from primary")
      else if p == lc "/b/f" then .ok (lc "content from secondary")
      else .error (lc "boom") }

/-- Fixture: a workspace with the single root /r. -/
def wsDir : WorkspaceContext :=
  { getDirectories := [lc "/r"], isPathWithinWorkspace := fun _ => false }

/-- Fixture: a filesystem where /r/d is a directory with no children. -/
def fsxDir : FS :=
  { access := fun p => p == lc "/r/d"
    stat := fun p => if p == lc "/r/d" then .ok true else .error (lc "boom")
    readdir := fun p => if p == lc "/r/d" then .ok [] else .error (lc "boom")
    readFile := fun _ => .error (lc "boom") }

/-- Fixture: a filesystem where /r/d is a directory with the single
child x.txt. -/
def fsxOneChild : FS :=
  { access := fun p => p == lc "/r/d"
    stat := fun p => if p == lc "/r/d" then .ok true else .error (lc "boom")
    readdir := fun p =>
      if p == lc "/r/d" then .ok [lc "x.txt"] else .error (lc "boom")
    readFile := fun _ => .error (lc "boom") }

/-- Fixture: a workspace whose containment check accepts every path. -/
def wsInside : WorkspaceContext :=
  { getDirectories := [], isPathWithinWorkspace := fun _ => true }

/-- Fixture: a filesystem whose stat call always fails with an
ENOENT-style message, as for a missing absolute target. -/
def fsxEnoent : FS :=
  { access := fun _ => false
    stat := fun _ => .error (lc "ENOENT: no such file or directory, stat")
    readdir := fun _ => .error (lc "boom")
    readFile := fun _ => .error (lc "boom") }

theorem indexOfTriggerAux_bounds :
    ∀ (l : List Char) (j s : Nat), indexOfTriggerAux l j = some s →
      j ≤ s ∧ s - j < l.length := by
  intro l
  induction l with
  | nil => intro j s h; simp [indexOfTriggerAux] at h
  | cons a tail ih =>
    intro j s h
    cases tail with
    | nil => simp [indexOfTriggerAux] at h
    | cons b rest =>
      simp only [indexOfTriggerAux] at h
      split at h
      · simp only [Option.some.injEq] at h
        simp only [List.length_cons]
        omega
      · have := ih (j + 1) s h
        simp only [List.length_cons] at this ⊢
        omega

theorem findTriggerFrom_bounds {cs : List Char} {i s : Nat}
    (h : findTriggerFrom cs i = some s) : i ≤ s ∧ s < cs.length := by
  have := indexOfTriggerAux_bounds (cs.drop i) i s h
  rw [List.length_drop] at this
  omega

theorem scanCloseAux_bounds :
    ∀ (l : List Char) (d : Int) (j c : Nat), scanCloseAux l d j = some c →
      j ≤ c ∧ c - j < l.length := by
  intro l
  induction l with
  | nil => intro d j c h; simp [scanCloseAux] at h
  | cons x rest ih =>
    intro d j c h
    simp only [scanCloseAux] at h
    split at h
    · have := ih (d + 1) (j + 1) c h
      simp only [List.length_cons] at this ⊢
      omega
    · split at h
      · split at h
        · simp only [Option.some.injEq] at h
          simp only [List.length_cons]
          omega
        · have := ih (d - 1) (j + 1) c h
          simp only [List.length_cons] at this ⊢
          omega
      · have := ih d (j + 1) c h
        simp only [List.length_cons] at this ⊢
        omega

theorem scanClose_bounds {cs : List Char} {cur close : Nat} {d : Int}
    (h : scanClose cs cur d = some close) : cur ≤ close ∧ close < cs.length := by
  have := scanCloseAux_bounds (cs.drop cur) d cur close h
  rw [List.length_drop] at this
  omega

theorem extractLoop_eq_nil {cs : List Char} {index : Nat}
    (h : findTriggerFrom cs index = none) : extractLoop cs index = [] := by
  rw [extractLoop.eq_def]
  split
  · split
    · rfl
    · rename_i s h1
      rw [h] at h1
      cases h1
  · rfl

theorem extractLoop_eq_cons {cs : List Char} {index s close : Nat}
    (h1 : findTriggerFrom cs index = some s)
    (h2 : scanClose cs (s + 2) 1 = some close) :
    extractLoop cs index
      = { path := trimText (substringL cs (s + 2) close),
          startIndex := s, endIndex := close + 1 }
        :: extractLoop cs (close + 1) := by
  have hb := findTriggerFrom_bounds h1
  rw [extractLoop.eq_def]
  rw [dif_pos (by omega : index < cs.length)]
  split
  · rename_i h1x
    rw [h1] at h1x
    cases h1x
  · rename_i sx h1x
    rw [h1] at h1x
    cases h1x
    split
    · rename_i cx h2x
      rw [h2] at h2x
      cases h2x
      rfl
    · rename_i h2x
      rw [h2] at h2x
      cases h2x

theorem extractLoop_eq_skip {cs : List Char} {index s : Nat}
    (h1 : findTriggerFrom cs index = some s)
    (h2 : scanClose cs (s + 2) 1 = none) :
    extractLoop cs index = extractLoop cs (s + 1) := by
  have hb := findTriggerFrom_bounds h1
  rw [extractLoop.eq_def]
  rw [dif_pos (by omega : index < cs.length)]
  split
  · rename_i h1x
    rw [h1] at h1x
    cases h1x
  · rename_i sx h1x
    rw [h1] at h1x
    cases h1x
    split
    · rename_i cx h2x
      rw [h2] at h2x
      cases h2x
    · rfl

theorem extractLoop_mem_bounds {cs : List Char} {index : Nat} :
    ∀ inj ∈ extractLoop cs index,
      index ≤ inj.startIndex ∧ inj.startIndex + 3 ≤ inj.endIndex
        ∧ inj.endIndex ≤ cs.length := by
  induction index using extractLoop.induct cs with
  | case1 x hlt h1 =>
    rw [extractLoop_eq_nil h1]
    intro inj hm
    cases hm
  | case2 x hlt s h1 close h2 ih =>
    rw [extractLoop_eq_cons h1 h2]
    intro inj hm
    have hf := findTriggerFrom_bounds h1
    have hc := scanClose_bounds h2
    rcases List.mem_cons.mp hm with hEq | hTail
    · subst hEq
      simp only
      omega
    · have := ih inj hTail
      omega
  | case3 x hlt s h1 h2 ih =>
    rw [extractLoop_eq_skip h1 h2]
    intro inj hm
    have hf := findTriggerFrom_bounds h1
    have := ih inj hm
    omega
  | case4 x hge =>
    rw [extractLoop.eq_def, dif_neg hge]
    intro inj hm
    cases hm

theorem indexOfTriggerAux_infix :
    ∀ (l : List Char) (j s : Nat), indexOfTriggerAux l j = some s →
      AT_FILE_INJECTION_TRIGGER <:+: l := by
  intro l
  induction l with
  | nil => intro j s h; simp [indexOfTriggerAux] at h
  | cons a tail ih =>
    intro j s h
    cases tail with
    | nil => simp [indexOfTriggerAux] at h
    | cons b rest =>
      simp only [indexOfTriggerAux] at h
      split at h
      · rename_i hab
        exact ⟨[], rest, by simp [AT_FILE_INJECTION_TRIGGER, hab.1, hab.2]⟩
      · exact (ih (j + 1) s h).trans (List.infix_cons (List.infix_refl _))

theorem containsTrigger_false_extract_nil {cs : List Char}
    (h : containsTrigger cs = false) : extractInjections cs = [] := by
  apply extractLoop_eq_nil
  cases hft : findTriggerFrom cs 0 with
  | none => rfl
  | some s =>
    exfalso
    have : AT_FILE_INJECTION_TRIGGER <:+: cs := by
      have := indexOfTriggerAux_infix (cs.drop 0) 0 s hft
      simpa using this
    simp [containsTrigger, this] at h

theorem substringL_append (cs : List Char) {a b c : Nat}
    (hab : a ≤ b) (hbc : b ≤ c) :
    substringL cs a b ++ substringL cs b c = substringL cs a c := by
  unfold substringL
  have hsplit : cs.take c = cs.take b ++ (cs.take c).drop b := by
    conv_lhs => rw [← List.take_append_drop b (cs.take c)]
    rw [List.take_take, min_eq_left hbc]
  conv_rhs => rw [hsplit]
  rw [List.drop_append_eq_append_drop]
  rcases le_or_lt a (cs.take b).length with hle | hgt
  · rw [Nat.sub_eq_zero_of_le hle, List.drop_zero]
  · have h1 : (cs.take b).drop a = [] := by
      apply List.drop_eq_nil_of_le
      omega
    have h2 : (cs.take c).drop b = [] := by
      apply List.drop_eq_nil_of_le
      rw [List.length_take] at hgt ⊢
      omega
    simp [h1, h2]

theorem substringL_zero_length (cs : List Char) :
    substringL cs 0 cs.length = cs := by
  simp [substringL]

theorem substringL_infix (cs : List Char) {a b : Nat} (hab : a ≤ b) :
    substringL cs a b <:+: cs := by
  refine ⟨cs.take a, cs.drop b, ?_⟩
  unfold substringL
  have h1 : cs.take a = (cs.take b).take a := by
    rw [List.take_take, min_eq_left hab]
  rw [h1, List.take_append_drop, List.take_append_drop]

theorem foldl_processStep_spec (fsx : FS) (ws : WorkspaceContext)
    (prompt : List Char) :
    ∀ (injs : List FileInjection) (acc : List Char) (last : Nat)
      (notes : List (List Char)),
      (injs.foldl (processStep fsx ws prompt) (acc, last, notes)).1
          ++ substringL prompt
              (injs.foldl (processStep fsx ws prompt) (acc, last, notes)).2.1
              prompt.length
        = acc ++ rebuildFrom fsx ws prompt last injs
      ∧ (injs.foldl (processStep fsx ws prompt) (acc, last, notes)).2.2
        = notes ++ injs.filterMap (spanNotification fsx ws) := by
  intro injs
  induction injs with
  | nil =>
    intro acc last notes
    simp [rebuildFrom]
  | cons inj rest ih =>
    intro acc last notes
    rw [List.foldl_cons]
    cases hr : readPathFromWorkspace fsx inj.path ws with
    | ok content =>
      have hstep : processStep fsx ws prompt (acc, last, notes) inj
          = (acc ++ substringL prompt last inj.startIndex ++ content,
             inj.endIndex, notes) := by
        simp [processStep, hr]
      rw [hstep]
      have := ih (acc ++ substringL prompt last inj.startIndex ++ content)
        inj.endIndex notes
      refine ⟨?_, ?_⟩
      · rw [this.1]
        simp [rebuildFrom, spanReplacement, hr, List.append_assoc]
      · rw [this.2]
        simp [spanNotification, hr]
    | error e =>
      have hstep : processStep fsx ws prompt (acc, last, notes) inj
          = (acc ++ substringL prompt last inj.startIndex
               ++ substringL prompt inj.startIndex inj.endIndex,
             inj.endIndex,
             notes ++ [uiErrorMessage inj.path e.message]) := by
        simp [processStep, hr]
      rw [hstep]
      have := ih (acc ++ substringL prompt last inj.startIndex
          ++ substringL prompt inj.startIndex inj.endIndex)
        inj.endIndex (notes ++ [uiErrorMessage inj.path e.message])
      refine ⟨?_, ?_⟩
      · rw [this.1]
        simp [rebuildFrom, spanReplacement, hr, List.append_assoc]
      · rw [this.2]
        simp [spanNotification, hr]

theorem process_eq_rebuild (fsx : FS) (ws : WorkspaceContext)
    (prompt : List Char) :
    process fsx (some ws) prompt
      = (rebuildFrom fsx ws prompt 0 (extractInjections prompt),
         (extractInjections prompt).filterMap (spanNotification fsx ws)) := by
  unfold process
  by_cases hct : containsTrigger prompt = false
  · rw [if_pos hct, containsTrigger_false_extract_nil hct]
    simp [rebuildFrom, substringL_zero_length]
  · rw [if_neg hct]
    simp only
    cases hinj : extractInjections prompt with
    | nil => simp [rebuildFrom, substringL_zero_length]
    | cons inj rest =>
      rw [if_neg (by simp : ¬((inj :: rest) : List FileInjection).length = 0)]
      have := foldl_processStep_spec fsx ws prompt (inj :: rest) [] 0 []
      rw [Prod.ext_iff]
      constructor
      · simpa using this.1
      · simpa using this.2

theorem findExisting_eq_find (fsx : FS) (pathStr : List Char) :
    ∀ dirs : List (List Char),
      findExisting fsx dirs pathStr
        = (dirs.find? (fun d => fsx.access (pathResolve d pathStr))).map
            (fun d => pathResolve d pathStr) := by
  intro dirs
  induction dirs with
  | nil => simp [findExisting]
  | cons dir rest ih =>
    rw [findExisting, List.find?_cons]
    by_cases h : fsx.access (pathResolve dir pathStr)
    · simp [h]
    · simp only [Bool.not_eq_true] at h
      simp [h, ih]

theorem depthOf_nil : depthOf [] = 0 := rfl

theorem depthOf_cons (c : Char) (l : List Char) :
    depthOf (c :: l) = braceDelta c + depthOf l := by
  simp [depthOf]

theorem scanCloseAux_balanced :
    ∀ (inner rest : List Char) (d : Int) (cur : Nat),
      d + depthOf inner = 1 →
      (∀ j (hj : j < inner.length),
        inner.get ⟨j, hj⟩ = '\x7d' → d + depthOf (inner.take j) ≠ 1) →
      scanCloseAux (inner ++ '\x7d' :: rest) d cur = some (cur + inner.length) := by
  intro inner
  induction inner with
  | nil =>
    intro rest d cur hbal hnc
    rw [depthOf_nil] at hbal
    have hd : d = 1 := by omega
    simp [scanCloseAux, hd]
  | cons x inner ih =>
    intro rest d cur hbal hnc
    rw [List.cons_append]
    rw [scanCloseAux]
    rw [depthOf_cons] at hbal
    by_cases hx1 : x = '\x7b'
    · rw [if_pos hx1]
      rw [ih rest (d + 1) (cur + 1) ?_ ?_]
      · simp [List.length_cons]
        omega
      · rw [hx1] at hbal
        simp [braceDelta] at hbal
        omega
      · intro j hj hget
        have := hnc (j + 1) (by simp [List.length_cons]; omega)
          (by simpa using hget)
        rw [List.take_succ_cons, depthOf_cons] at this
        rw [hx1] at this
        simp [braceDelta] at this
        intro hcon
        apply this
        omega
    · rw [if_neg hx1]
      by_cases hx2 : x = '\x7d'
      · rw [if_pos hx2]
        have hd1 : d ≠ 1 := by
          have := hnc 0 (by simp) (by simpa using hx2)
          simpa [depthOf_nil] using this
        rw [if_neg hd1]
        rw [ih rest (d - 1) (cur + 1) ?_ ?_]
        · simp [List.length_cons]
          omega
        · rw [hx2] at hbal
          simp [braceDelta] at hbal
          omega
        · intro j hj hget
          have := hnc (j + 1) (by simp [List.length_cons]; omega)
            (by simpa using hget)
          rw [List.take_succ_cons, depthOf_cons] at this
          rw [hx2] at this
          simp [braceDelta] at this
          intro hcon
          apply this
          omega
      · rw [if_neg hx2]
        rw [ih rest d (cur + 1) ?_ ?_]
        · simp [List.length_cons]
          omega
        · have hbx : braceDelta x = 0 := by
            simp [braceDelta, hx1, hx2]
          rw [hbx] at hbal
          omega
        · intro j hj hget
          have := hnc (j + 1) (by simp [List.length_cons]; omega)
            (by simpa using hget)
          rw [List.take_succ_cons, depthOf_cons] at this
          have hbx : braceDelta x = 0 := by
            simp [braceDelta, hx1, hx2]
          rw [hbx] at this
          intro hcon
          apply this
          omega

theorem depthOf_append (a b : List Char) :
    depthOf (a ++ b) = depthOf a + depthOf b := by
  simp [depthOf]

theorem extract_head_balanced (inner rest : List Char)
    (hbal : depthOf inner = 0)
    (hnn : ∀ j, j ≤ inner.length → 0 ≤ depthOf (inner.take j)) :
    extractLoop ('@' :: '\x7b' :: (inner ++ '\x7d' :: rest)) 0
      = { path := trimText inner, startIndex := 0,
          endIndex := inner.length + 3 }
        :: extractLoop ('@' :: '\x7b' :: (inner ++ '\x7d' :: rest))
            (inner.length + 3) := by
  have h1 : findTriggerFrom ('@' :: '\x7b' :: (inner ++ '\x7d' :: rest)) 0
      = some 0 := by
    simp [findTriggerFrom, indexOfTriggerAux]
  have hnc : ∀ j (hj : j < inner.length),
      inner.get ⟨j, hj⟩ = '\x7d' → (1 : Int) + depthOf (inner.take j) ≠ 1 := by
    intro j hj hget
    have hstep := hnn (j + 1) (by omega)
    rw [List.take_succ, List.getElem?_eq_getElem hj] at hstep
    rw [List.get_eq_getElem] at hget
    rw [hget] at hstep
    simp only [Option.toList_some, depthOf_append, depthOf_cons,
      depthOf_nil] at hstep
    have hb : braceDelta '\x7d' = -1 := by decide
    rw [hb] at hstep
    omega
  have h2 : scanClose ('@' :: '\x7b' :: (inner ++ '\x7d' :: rest)) 2 1
      = some (2 + inner.length) := by
    show scanCloseAux
        (('@' :: '\x7b' :: (inner ++ '\x7d' :: rest)).drop 2) 1 2
      = some (2 + inner.length)
    have hdrop : ('@' :: '\x7b' :: (inner ++ '\x7d' :: rest)).drop 2
        = inner ++ '\x7d' :: rest := by
      simp
    rw [hdrop]
    exact scanCloseAux_balanced inner rest 1 2 (by omega) hnc
  rw [extractLoop_eq_cons h1 h2]
  have hsub : substringL ('@' :: '\x7b' :: (inner ++ '\x7d' :: rest))
      (0 + 2) (2 + inner.length) = inner := by
    unfold substringL
    have : (2 + inner.length) = ('@' :: '\x7b' :: inner).length := by
      simp; omega
    rw [this]
    have hassoc : ('@' :: '\x7b' :: (inner ++ '\x7d' :: rest))
        = ('@' :: '\x7b' :: inner) ++ '\x7d' :: rest := by
      simp
    rw [hassoc, List.take_left]
    rfl
  rw [hsub]
  have : 2 + inner.length + 1 = inner.length + 3 := by omega
  rw [this]

theorem join_cons_eq_flatten (sep e : List Char) :
    ∀ es : List (List Char),
      sep ++ List.intercalate sep (e :: es)
        = ((e :: es).map (fun x => sep ++ x)).flatten := by
  intro es
  induction es generalizing e with
  | nil => simp [List.intercalate]
  | cons e2 es ih =>
    have hstep : List.intercalate sep (e :: e2 :: es)
        = e ++ sep ++ List.intercalate sep (e2 :: es) := by
      simp [List.intercalate]
    rw [hstep]
    have := ih e2
    simp only [List.map_cons, List.flatten_cons] at this ⊢
    rw [← this]
    simp [List.append_assoc]

/-- Claim C2: when a trigger is opened but the brace depth never returns
to zero before end of text, the scanner discards the candidate and
resumes exactly one character past the trigger start (not past the whole
trigger), so a valid trigger starting inside the abandoned region is
still found; in particular "@\x7b@\x7bx\x7d" still yields the inner
span, and "Hello @\x7bworld" yields zero spans and process returns it
unchanged. -/
theorem C2_unclosed_trigger_resume :
    (∀ (cs : List Char) (index s : Nat),
        findTriggerFrom cs index = some s →
        scanClose cs (s + 2) 1 = none →
        extractLoop cs index = extractLoop cs (s + 1))
    ∧ extractInjections (lc "@\x7b@\x7bx\x7d")
        = [{ path := lc "x", startIndex := 2, endIndex := 6 }]
    ∧ extractInjections (lc "Hello @\x7bworld") = []
    ∧ (∀ (fsx : FS) (config : Option WorkspaceContext),
        process fsx config (lc "Hello @\x7bworld")
          = (lc "Hello @\x7bworld", [])) := by
  refine ⟨?_, ?_, ?_, ?_⟩
  · intro cs index s h1 h2
    exact extractLoop_eq_skip h1 h2
  · rw [extractInjections,
      @extractLoop_eq_skip (lc "@\x7b@\x7bx\x7d") 0 0 (by decide) (by decide),
      @extractLoop_eq_cons (lc "@\x7b@\x7bx\x7d") 1 2 5 (by decide) (by decide),
      extractLoop_eq_nil (by decide)]
    decide
  · rw [extractInjections,
      @extractLoop_eq_skip (lc "Hello @\x7bworld") 0 6 (by decide) (by decide),
      extractLoop_eq_nil (by decide)]
  · intro fsx config
    have hnil : extractInjections (lc "Hello @\x7bworld") = [] := by
      rw [extractInjections,
        @extractLoop_eq_skip (lc "Hello @\x7bworld") 0 6 (by decide) (by decide),
        extractLoop_eq_nil (by decide)]
    cases config with
    | none => simp [process]
    | some ws => simp [process, hnil]

/-- Witness for C2: the scanner state after the unclosed candidate at
position 0 of "@\x7b@\x7bx\x7d" equals a rescan from position 1. -/
theorem C2_witness :
    extractLoop (lc "@\x7b@\x7bx\x7d") 0 = extractLoop (lc "@\x7b@\x7bx\x7d") 1 :=
  C2_unclosed_trigger_resume.1 (lc "@\x7b@\x7bx\x7d") 0 0 (by decide) (by decide)

/-- Claim C3: a well-formed injection whose inner braces are balanced
yields a span whose path is exactly the inner substring (trigger and
matching closing brace excluded) with surrounding whitespace stripped;
nested braces are matched by depth counting, and an empty inner text is
a valid span with an empty path. -/
theorem C3_balanced_inner_path :
    (∀ (inner rest : List Char),
        depthOf inner = 0 →
        (∀ j, j ≤ inner.length → 0 ≤ depthOf (inner.take j)) →
        extractLoop ('@' :: '\x7b' :: (inner ++ '\x7d' :: rest)) 0
          = { path := trimText inner, startIndex := 0,
              endIndex := inner.length + 3 }
            :: extractLoop ('@' :: '\x7b' :: (inner ++ '\x7d' :: rest))
                (inner.length + 3))
    ∧ extractInjections (lc "@\x7ba/\x7bb\x7d/c\x7d")
        = [{ path := lc "a/\x7bb\x7d/c", startIndex := 0, endIndex := 10 }]
    ∧ extractInjections (lc "@\x7b\x7d")
        = [{ path := [], startIndex := 0, endIndex := 3 }] := by
  refine ⟨extract_head_balanced, ?_, ?_⟩
  · rw [extractInjections,
      @extractLoop_eq_cons (lc "@\x7ba/\x7bb\x7d/c\x7d") 0 0 9
        (by decide) (by decide),
      extractLoop_eq_nil (by decide)]
    decide
  · rw [extractInjections,
      @extractLoop_eq_cons (lc "@\x7b\x7d") 0 0 2 (by decide) (by decide),
      extractLoop_eq_nil (by decide)]
    decide

/-- Witness for C3: the balanced inner text "a" extracts to a span with
path "a" covering the whole injection. -/
theorem C3_witness :
    extractLoop ('@' :: '\x7b' :: (lc "a" ++ '\x7d' :: [])) 0
      = { path := trimText (lc "a"), startIndex := 0,
          endIndex := (lc "a").length + 3 }
        :: extractLoop ('@' :: '\x7b' :: (lc "a" ++ '\x7d' :: []))
            ((lc "a").length + 3) :=
  C3_balanced_inner_path.1 (lc "a") [] (by decide) (by decide)

/-- Claim C7: a prompt without the trigger substring is returned
unchanged with no notification, whatever the filesystem (so the resolver
is never consulted and no scan is performed), and a missing config
service likewise returns the prompt unchanged. -/
theorem C7_fast_paths (fsx : FS) (prompt : List Char) :
    (containsTrigger prompt = false →
      ∀ config : Option WorkspaceContext,
        process fsx config prompt = (prompt, []))
    ∧ process fsx none prompt = (prompt, []) := by
  constructor
  · intro h config
    simp [process, h]
  · by_cases h : containsTrigger prompt = false
    · simp [process, h]
    · simp [process, h]

/-- Witness for C7: a trigger-free prompt passes through process
unchanged. -/
theorem C7_witness :
    process fsxStub (some wsOutside) (lc "hello") = (lc "hello", []) :=
  (C7_fast_paths fsxStub (lc "hello")).1 (by decide) (some wsOutside)


theorem readPathFromWorkspace_dir (fsx : FS) (ws : WorkspaceContext)
    (pathStr absPath : List Char) (entries : List (List Char))
    (hres : resolveAbsolutePath fsx ws pathStr = .ok (some absPath))
    (hstat : fsx.stat absPath = .ok true)
    (hdir : fsx.readdir absPath = .ok entries) :
    readPathFromWorkspace fsx pathStr ws
      = .ok (lc "Directory listing for " ++ pathStr ++ lc ":\n- "
          ++ List.intercalate (lc "\n- ") entries) := by
  simp only [readPathFromWorkspace, hres, readTarget, hstat, hdir]

theorem readTarget_ne_notFound (fsx : FS) (absPath pathStr e : List Char) :
    readTarget fsx absPath pathStr ≠ .error (.notFound e) := by
  intro h
  rw [readTarget.eq_def] at h
  split at h
  · simp at h
  · split at h <;> simp at h
  · split at h <;> simp at h

/-- Claim C10: a resolved directory target with zero immediate children
yields the header followed by a newline and a dangling "- " line with no
entry after it. -/
theorem C10_empty_directory_dangling_dash (fsx : FS) (ws : WorkspaceContext)
    (pathStr absPath : List Char)
    (hres : resolveAbsolutePath fsx ws pathStr = .ok (some absPath))
    (hstat : fsx.stat absPath = .ok true)
    (hdir : fsx.readdir absPath = .ok []) :
    readPathFromWorkspace fsx pathStr ws
      = .ok (lc "Directory listing for " ++ pathStr ++ lc ":\n- ") := by
  rw [readPathFromWorkspace_dir fsx ws pathStr absPath [] hres hstat hdir]
  simp [List.intercalate]

/-- Witness for C10: the empty directory /r/d, reached through the
relative path d, lists as the header plus a dangling "- " line. -/
theorem C10_witness :
    readPathFromWorkspace fsxDir (lc "d") wsDir
      = .ok (lc "Directory listing for d:\n- ") :=
  C10_empty_directory_dangling_dash fsxDir wsDir (lc "d") (lc "/r/d")
    (by decide) (by decide) (by decide)

/-- Counterexample for C8: an empty directory is a resolved directory
target, yet the result is not the header followed by one "- entry" line
per immediate child (which for zero children would be the bare header):
the code emits a dangling "- " line. -/
theorem C8_counterexample :
    fsxDir.readdir (lc "/r/d") = .ok []
    ∧ fsxDir.stat (lc "/r/d") = .ok true
    ∧ readPathFromWorkspace fsxDir (lc "d") wsDir
        = .ok (lc "Directory listing for d:\n- ")
    ∧ readPathFromWorkspace fsxDir (lc "d") wsDir
        ≠ .ok (dirListingPerChild (lc "d") []) := by
  refine ⟨by decide, by decide, by decide, by decide⟩

/-- Claim C8 (amended): for every resolved directory target with at
least one immediate child, the resolver returns the string beginning
with the directory-listing header followed by exactly one "- entry" line
per immediate child; a directory with zero children instead yields a
dangling "- " line (see C10). -/
theorem C8_directory_listing (fsx : FS) (ws : WorkspaceContext)
    (pathStr absPath e : List Char) (es : List (List Char))
    (hres : resolveAbsolutePath fsx ws pathStr = .ok (some absPath))
    (hstat : fsx.stat absPath = .ok true)
    (hdir : fsx.readdir absPath = .ok (e :: es)) :
    readPathFromWorkspace fsx pathStr ws
      = .ok (dirListingPerChild pathStr (e :: es))
    ∧ (lc "Directory listing for " ++ pathStr ++ lc ":")
        <+: dirListingPerChild pathStr (e :: es) := by
  constructor
  · rw [readPathFromWorkspace_dir fsx ws pathStr absPath (e :: es) hres hstat hdir]
    have hsep : lc ":\n- " = lc ":" ++ lc "\n- " := by decide
    rw [dirListingPerChild, ← join_cons_eq_flatten (lc "\n- ") e es, hsep]
    simp [List.append_assoc]
  · exact ⟨((e :: es).map (fun x => lc "\n- " ++ x)).flatten, rfl⟩

/-- Witness for C8: a directory with one child x.txt lists as the header
plus the single entry line. -/
theorem C8_witness :
    readPathFromWorkspace fsxOneChild (lc "d") wsDir
      = .ok (dirListingPerChild (lc "d") [lc "x.txt"])
    ∧ (lc "Directory listing for " ++ lc "d" ++ lc ":")
        <+: dirListingPerChild (lc "d") [lc "x.txt"] :=
  C8_directory_listing fsxOneChild wsDir (lc "d") (lc "/r/d") (lc "x.txt") []
    (by decide) (by decide) (by decide)

/-- Counterexample for C9: an absolute path inside the workspace whose
target is missing does not fail with the resolver's NotFoundError; the
underlying stat failure surfaces instead. -/
theorem C9_counterexample :
    readPathFromWorkspace fsxEnoent (lc "/a") wsInside
      = .error (.ioError (lc "ENOENT: no such file or directory, stat"))
    ∧ ¬ ∃ p, readPathFromWorkspace fsxEnoent (lc "/a") wsInside
        = .error (.notFound p) := by
  constructor
  · decide
  · rintro ⟨p, hp⟩
    have hval : readPathFromWorkspace fsxEnoent (lc "/a") wsInside
        = .error (.ioError (lc "ENOENT: no such file or directory, stat")) := by
      decide
    rw [hval] at hp
    simp at hp

/-- Claim C9 (amended): readPathFromWorkspace fails with NotFoundError
exactly when the path is relative and exists under no configured root;
an absolute in-workspace path with a missing target surfaces the
underlying stat failure as an io error instead. -/
theorem C9_notFound_characterization (fsx : FS) (ws : WorkspaceContext)
    (pathStr e : List Char) :
    readPathFromWorkspace fsx pathStr ws = .error (.notFound e)
      ↔ e = pathStr ∧ isAbsolute pathStr = false
        ∧ findExisting fsx ws.getDirectories pathStr = none := by
  constructor
  · intro h
    by_cases habs : isAbsolute pathStr
    · by_cases hin : ws.isPathWithinWorkspace pathStr
      · have hv : readPathFromWorkspace fsx pathStr ws
            = readTarget fsx pathStr pathStr := by
          simp [readPathFromWorkspace, resolveAbsolutePath, habs, hin]
        rw [hv] at h
        exact absurd h (readTarget_ne_notFound fsx pathStr pathStr e)
      · simp only [Bool.not_eq_true] at hin
        simp [readPathFromWorkspace, resolveAbsolutePath, habs, hin] at h
    · simp only [Bool.not_eq_true] at habs
      cases hfe : findExisting fsx ws.getDirectories pathStr with
      | none =>
        have hes : e = pathStr := by
          simp [readPathFromWorkspace, resolveAbsolutePath, habs, hfe] at h
          exact h.symm
        exact ⟨hes, habs, rfl⟩
      | some a =>
        have hv : readPathFromWorkspace fsx pathStr ws
            = readTarget fsx a pathStr := by
          simp [readPathFromWorkspace, resolveAbsolutePath, habs, hfe]
        rw [hv] at h
        exact absurd h (readTarget_ne_notFound fsx a pathStr e)
  · rintro ⟨rfl, habs, hfe⟩
    simp [readPathFromWorkspace, resolveAbsolutePath, habs, hfe]

/-- Claim C1: an absolute path rejected by the workspace containment
check fails resolution with the out-of-bounds error carrying the
offending path; the expander absorbs the failure, so for a prompt whose
single injection is that path the output is the original prompt (the
placeholder text verbatim) and exactly one notification containing the
offending path is emitted. -/
theorem C1_outOfBounds_absorbed (fsx : FS) (ws : WorkspaceContext)
    (prompt : List Char) (inj : FileInjection)
    (hext : extractInjections prompt = [inj])
    (habs : isAbsolute inj.path = true)
    (hout : ws.isPathWithinWorkspace inj.path = false) :
    readPathFromWorkspace fsx inj.path ws = .error (.outOfBounds inj.path)
    ∧ inj.path <:+ (ReadError.outOfBounds inj.path).message
    ∧ process fsx (some ws) prompt
        = (prompt,
           [uiErrorMessage inj.path (ReadError.outOfBounds inj.path).message])
    ∧ inj.path
        <:+: uiErrorMessage inj.path (ReadError.outOfBounds inj.path).message := by
  have hres : readPathFromWorkspace fsx inj.path ws
      = .error (.outOfBounds inj.path) := by
    simp [readPathFromWorkspace, resolveAbsolutePath, habs, hout]
  have hmem : inj ∈ extractLoop prompt 0 := by
    rw [extractInjections] at hext
    rw [hext]
    exact List.mem_singleton.mpr rfl
  obtain ⟨h0, h3, hlen⟩ := extractLoop_mem_bounds inj hmem
  refine ⟨hres,
    ⟨lc "Absolute path is outside of the allowed workspace: ", rfl⟩, ?_, ?_⟩
  · rw [process_eq_rebuild, hext]
    refine Prod.ext ?_ ?_
    · simp only [rebuildFrom, spanReplacement, hres]
      rw [substringL_append prompt (Nat.zero_le _) (by omega),
        substringL_append prompt (Nat.zero_le _) hlen,
        substringL_zero_length]
    · simp [spanNotification, hres]
  · exact ⟨lc "Failed to inject file content for \x27@\x7b",
      lc "\x7d\x27: " ++ (ReadError.outOfBounds inj.path).message,
      by simp [uiErrorMessage, List.append_assoc]⟩

/-- Witness for C1: the single absolute injection /etc/pw in a workspace
that contains nothing leaves the prompt unchanged and emits exactly the
one out-of-bounds notification. -/
theorem C1_witness :
    process fsxStub (some wsOutside) promptAbs
      = (promptAbs,
         [uiErrorMessage (lc "/etc/pw")
            (ReadError.outOfBounds (lc "/etc/pw")).message]) :=
  (C1_outOfBounds_absorbed fsxStub wsOutside promptAbs
      { path := lc "/etc/pw", startIndex := 0, endIndex := 10 }
      (by
        rw [extractInjections,
          @extractLoop_eq_cons promptAbs 0 0 9 (by decide) (by decide),
          extractLoop_eq_nil (by decide)]
        decide)
      (by decide) (by decide)).2.2.1

/-- Claim C4: for a relative path the resolver walks the configured
roots in order (primary first) and selects the first root under which
the candidate exists; in particular, when the candidate exists under the
primary (head) root, the primary root's path is the one read, whatever
the later roots hold. -/
theorem C4_relative_first_root_wins (fsx : FS) (ws : WorkspaceContext)
    (pathStr : List Char) (hrel : isAbsolute pathStr = false) :
    resolveAbsolutePath fsx ws pathStr
      = .ok ((ws.getDirectories.find?
            (fun d => fsx.access (pathResolve d pathStr))).map
          (fun d => pathResolve d pathStr))
    ∧ (∀ d rest, ws.getDirectories = d :: rest →
        fsx.access (pathResolve d pathStr) = true →
        readPathFromWorkspace fsx pathStr ws
          = readTarget fsx (pathResolve d pathStr) pathStr) := by
  constructor
  · simp [resolveAbsolutePath, hrel, findExisting_eq_find]
  · intro d rest hd hacc
    have hfe : findExisting fsx ws.getDirectories pathStr
        = some (pathResolve d pathStr) := by
      rw [hd, findExisting]
      simp [hacc]
    simp [readPathFromWorkspace, resolveAbsolutePath, hrel, hfe]

/-- Witness for C4: with the relative path f existing under both /a
(primary) and /b (secondary), resolution reads the primary root's
candidate /a/f. -/
theorem C4_witness :
    readPathFromWorkspace fsxTwoRoots (lc "f") wsTwoRoots
      = readTarget fsxTwoRoots (pathResolve (lc "/a") (lc "f")) (lc "f") :=
  (C4_relative_first_root_wins fsxTwoRoots wsTwoRoots (lc "f") (by decide)).2
    (lc "/a") [lc "/b"] (by decide) (by decide)

/-- Claim C5: the expander's output is the original text with each
successful span replaced by its resolved content and each failed span
left as the verbatim slice of the original prompt, text outside the
spans unchanged and every span handled independently; the mixed example
"Analyze @\x7bmissing.txt\x7d and @\x7bok.txt\x7d" with the first
injection failing yields the placeholder kept, the second resolved, and
exactly one notification referencing missing.txt. -/
theorem C5_frame_rebuild :
    (∀ (fsx : FS) (ws : WorkspaceContext) (prompt : List Char),
        process fsx (some ws) prompt
          = (rebuildFrom fsx ws prompt 0 (extractInjections prompt),
             (extractInjections prompt).filterMap (spanNotification fsx ws)))
    ∧ process fsxMixed (some wsMixed) promptMixed
        = (lc "Analyze @\x7bmissing.txt\x7d and ok content",
           [uiErrorMessage (lc "missing.txt")
              (ReadError.notFound (lc "missing.txt")).message])
    ∧ lc "missing.txt"
        <:+: uiErrorMessage (lc "missing.txt")
            (ReadError.notFound (lc "missing.txt")).message := by
  refine ⟨process_eq_rebuild, ?_, ?_⟩
  · have hx : extractInjections promptMixed
        = [{ path := lc "missing.txt", startIndex := 8, endIndex := 22 },
           { path := lc "ok.txt", startIndex := 27, endIndex := 36 }] := by
      rw [extractInjections,
        @extractLoop_eq_cons promptMixed 0 8 21 (by decide) (by decide),
        @extractLoop_eq_cons promptMixed 22 27 35 (by decide) (by decide),
        extractLoop_eq_nil (by decide)]
      decide
    rw [process_eq_rebuild, hx]
    decide
  · exact ⟨lc "Failed to inject file content for \x27@\x7b",
      lc "\x7d\x27: " ++ (ReadError.notFound (lc "missing.txt")).message,
      by simp [uiErrorMessage, List.append_assoc]⟩

/-- Claim C6: in one expansion call the notification sink receives
exactly one notification per failed injection and none for a successful
one, and each notification's text is exactly the failure format built
from the span's trimmed path and the failure's message. -/
theorem C6_notifications_exact (fsx : FS) (ws : WorkspaceContext) :
    (∀ prompt, (process fsx (some ws) prompt).2
        = (extractInjections prompt).filterMap (spanNotification fsx ws))
    ∧ (∀ (inj : FileInjection) (content : List Char),
        readPathFromWorkspace fsx inj.path ws = .ok content →
        spanNotification fsx ws inj = none)
    ∧ (∀ (inj : FileInjection) (e : ReadError),
        readPathFromWorkspace fsx inj.path ws = .error e →
        spanNotification fsx ws inj
          = some (lc "Failed to inject file content for \x27@\x7b" ++ inj.path
              ++ lc "\x7d\x27: " ++ e.message)) := by
  refine ⟨?_, ?_, ?_⟩
  · intro prompt
    rw [process_eq_rebuild]
  · intro inj content h
    simp [spanNotification, h]
  · intro inj e h
    simp [spanNotification, h, uiErrorMessage]

/-- Witness for C6: the failing injection missing.txt produces exactly
the formatted notification. -/
theorem C6_witness :
    spanNotification fsxMixed wsMixed
        { path := lc "missing.txt", startIndex := 8, endIndex := 22 }
      = some (lc "Failed to inject file content for \x27@\x7b"
          ++ lc "missing.txt" ++ lc "\x7d\x27: "
          ++ (ReadError.notFound (lc "missing.txt")).message) :=
  (C6_notifications_exact fsxMixed wsMixed).2.2
    { path := lc "missing.txt", startIndex := 8, endIndex := 22 }
    (ReadError.notFound (lc "missing.txt")) (by decide)
